import Mathlib

/-!
A shallow embedding of the dependency-resolution and synchronization engine
in `compiler-cli/src/dependencies.rs`, together with proofs of the testable
properties of its specification.

Modelling conventions:
* Rust `HashMap<String, V>` values are modelled as association lists
  `List (String × V)`; `mapGet` models `HashMap::get` and `mapInsert` models
  `HashMap::insert` (replace-on-existing-key).  All stated properties are
  order-insensitive set facts, matching the unordered nature of `HashMap`.
* `hexpm::version::Version` is modelled by its `major.minor.patch` triple
  (the pre-release/build fields are never consulted by this code).
* Filesystem paths are strings; `Path::join` is string concatenation with a
  separator.
-/

namespace Gleam

/-- Model of `hexpm::version::Version` (semantic version triple). -/
structure Version where
  major : Nat
  minor : Nat
  patch : Nat
deriving DecidableEq, Repr

/-- Rendering of a version, as used by `format!("== {}", config.version)`. -/
def Version.toStr (v : Version) : String :=
  toString v.major ++ "." ++ toString v.minor ++ "." ++ toString v.patch

/-- Model of `hexpm::version::Range` (`Range::new` wraps a requirement string). -/
structure RangeS where
  spec : String
deriving DecidableEq, Repr

/-- Model of `Recipe`: a dependency declaration is a hex version range, a
local path, or a git reference. -/
inductive Recipe where
  | hex (version : RangeS)
  | path (path : String)
  | git (git : String)
deriving DecidableEq, Repr

/-- Model of `ManifestPackageSource`. -/
inductive ManifestPackageSource where
  | hex (outerChecksum : List Nat)
  | localPath (path : String)
  | git (repo : String) (commit : String)
deriving DecidableEq, Repr

/-- Model of `ManifestPackage`. -/
structure ManifestPackage where
  name : String
  version : Version
  buildTools : List String
  otpApp : Option String
  requirements : List String
  source : ManifestPackageSource
deriving DecidableEq, Repr

/-- Model of `Manifest`. -/
structure Manifest where
  requirements : List (String × Recipe)
  packages : List ManifestPackage
deriving DecidableEq, Repr

/-- `HashMap::get` on the association-list model. -/
def mapGet {α : Type} (m : List (String × α)) (k : String) : Option α :=
  (m.find? (fun p => p.1 == k)).map (fun p => p.2)

/-- `HashMap::insert` on the association-list model: replace the value when
the key is present, append otherwise. -/
def mapInsert {α : Type} (m : List (String × α)) (k : String) (v : α) :
    List (String × α) :=
  if (m.find? (fun p => p.1 == k)).isSome then
    m.map (fun p => if p.1 == k then (k, v) else p)
  else
    m ++ [(k, v)]

/-- Model of `LocalPackages`: the on-disk record of materialized packages,
a map from package name to version. -/
structure LocalPackages where
  packages : List (String × Version)
deriving DecidableEq, Repr

/-- Model of `LocalPackages::extra_local_packages`: locally recorded
(name, version) pairs whose exact pair is absent from the manifest's
package set. -/
def LocalPackages.extraLocalPackages (lp : LocalPackages) (manifest : Manifest) :
    List (String × Version) :=
  let manifestPackages := manifest.packages.map (fun p => (p.name, p.version))
  lp.packages.filter (fun nv => decide (nv ∉ manifestPackages))

/-- Model of `LocalPackages::missing_local_packages`: manifest packages whose
name differs from the root and whose recorded local version is not exactly
the manifest version. -/
def LocalPackages.missingLocalPackages (lp : LocalPackages) (manifest : Manifest)
    (root : String) : List ManifestPackage :=
  manifest.packages.filter
    (fun p => decide (p.name ≠ root ∧ mapGet lp.packages p.name ≠ some p.version))

/-- Model of `LocalPackages::from_manifest`: collect the manifest's
(name, version) pairs into a map (`collect::<HashMap>` inserts in order,
later pairs overwriting earlier ones). -/
def LocalPackages.fromManifest (manifest : Manifest) : LocalPackages :=
  ⟨(manifest.packages.map (fun p => (p.name, p.version))).foldl
    (fun acc nv => mapInsert acc nv.1 nv.2) []⟩

/-- Model of `UseManifest`. -/
inductive UseManifest where
  | yes
  | no
deriving DecidableEq, Repr

/-- Model of `HashMap::eq`: equal length, and every key/value pair of the
left map is found with an equal value in the right map. -/
def hashMapEq {α : Type} [DecidableEq α] (a b : List (String × α)) : Bool :=
  a.length == b.length && a.all (fun kv => mapGet b kv.1 == some kv.2)

/-- Result of `get_manifest`, instrumented with the list of
`resolve_versions` invocations (each entry is the `Option<&Manifest>` locked
baseline that was passed). -/
structure GetManifestResult where
  changed : Bool
  manifest : Manifest
  resolveCalls : List (Option Manifest)
deriving DecidableEq, Repr

/-- Model of `get_manifest`.  The external pieces are abstracted: `resolve`
stands for `resolve_versions` (its argument is the locked-baseline manifest),
`file` is the manifest file on disc (`none` when `paths.manifest()` does not
exist; when present it is assumed to parse), and `configDeps` is the value of
`config.all_dependencies()` (the merged direct + dev dependency map, computed
by a collaborator outside this source unit). -/
def getManifest (resolve : Option Manifest → Manifest) (file : Option Manifest)
    (useManifest : UseManifest) (configDeps : List (String × Recipe)) :
    GetManifestResult :=
  match file with
  | none => ⟨true, resolve none, [none]⟩
  | some manifest =>
    match useManifest with
    | .no => ⟨true, resolve none, [none]⟩
    | .yes =>
      if hashMapEq manifest.requirements configDeps then
        ⟨false, manifest, []⟩
      else
        ⟨true, resolve (some manifest), [some manifest]⟩

/-- Model of the error type, restricted to the variants this code produces. -/
inductive GError where
  | dependencyResolutionFailed (msg : String)
  | fileIo (path : String)
deriving DecidableEq, Repr

/-- Outcome of a fallible Rust computation: success, a typed error
(`Err(...)` propagated by `?`), a panic (`.expect(...)`), or fuel
exhaustion of the model (never reached at the concrete inputs used below). -/
inductive RRes (α : Type) where
  | ok (a : α)
  | err (e : GError)
  | panic (msg : String)
  | diverge
deriving DecidableEq, Repr

/-- Model of `ProviderInfo`: the physical origin registered for a package
name during one resolution. -/
inductive ProviderInfo where
  | git (repo : String) (commit : String)
  | localPath (path : String)
deriving DecidableEq, Repr

/-- Model of `hexpm::Dependency`. -/
structure HexDependency where
  requirement : RangeS
  optional : Bool
  app : Option String
  repository : Option String
deriving DecidableEq, Repr

/-- Model of `hexpm::Release` (the unit `meta` field is omitted). -/
structure HexRelease where
  version : Version
  requirements : List (String × HexDependency)
  retirementStatus : Option Unit
  outerChecksum : List Nat
deriving DecidableEq, Repr

/-- Model of `hexpm::Package`. -/
structure HexPackage where
  name : String
  repository : String
  releases : List HexRelease
deriving DecidableEq, Repr

/-- The fields of `PackageConfig` consulted by the provider walk. -/
structure PackageConfig where
  name : String
  version : Version
  dependencies : List (String × Recipe)
deriving DecidableEq, Repr

/-- `Path::join` on the string model of paths. -/
def pathJoin (a b : String) : String := a ++ "/" ++ b

/-- The filesystem environment of the provider walk: `fs` maps a
`gleam.toml` path to the parsed `PackageConfig` stored there (absent paths
fail to read), and `canon` models `Path::canonicalize` (`none` when the OS
call fails, e.g. the path does not exist). -/
structure Env where
  fs : List (String × PackageConfig)
  canon : String → Option String

/-- The mutable state threaded through the provider walk: the `ProviderInfo`
origin map, the `provided` virtual-package map, and a log of every
`crate::config::read` call (recording its path), used to observe how often a
config file is parsed. -/
structure ResolveState where
  info : List (String × ProviderInfo)
  provided : List (String × HexPackage)
  readLog : List String
deriving DecidableEq, Repr

/-- Model of `crate::config::read`: parse the config file at `path`.  The
read is appended to the log whether or not it succeeds. -/
def configRead (env : Env) (path : String) (st : ResolveState) :
    Except GError PackageConfig × ResolveState :=
  let st := { st with readLog := st.readLog ++ [path] }
  match mapGet env.fs path with
  | some config => (.ok config, st)
  | none => (.error (.fileIo path), st)

/-- Model of `provide_git_package`: unconditionally fails; the constructed
`ProviderInfo::Git` value is bound to an unused variable and the state maps
are not touched. -/
def provideGitPackage (_packageName : String) (_repo : String)
    (st : ResolveState) : RRes RangeS × ResolveState :=
  let _git := ProviderInfo.git "repo" "commit"
  (.err (.dependencyResolutionFailed "Git dependencies are not supported"), st)

mutual

/-- Model of `provide_local_package`.  The first `Nat` argument is fuel for
the recursion (the Rust walk terminates by memoization; the model makes this
explicit).  Note that `package_path.canonicalize().expect(...)` panics when
canonicalization fails, and that `info.insert` replaces the registered
origin before the old value is inspected. -/
def provideLocalPackage (env : Env) : Nat → String → String → ResolveState →
    RRes RangeS × ResolveState
  | 0, _, _, st => (.diverge, st)
  | fuel + 1, packageName, packagePath, st =>
    match env.canon packagePath with
    | none => (.panic "local package cannonical path", st)
    | some canonicalPath =>
      let packageInfo := ProviderInfo.localPath canonicalPath
      let old := mapGet st.info packageName
      let st := { st with info := mapInsert st.info packageName packageInfo }
      match old with
      | none => providePackage env fuel packageName canonicalPath st
      | some existingPackageInfo =>
        if existingPackageInfo = packageInfo then
          match configRead env (pathJoin packagePath "gleam.toml") st with
          | (.ok config, st) => (.ok ⟨"== " ++ config.version.toStr⟩, st)
          | (.error e, st) => (.err e, st)
        else
          (.err (.dependencyResolutionFailed
            (packageName ++ " has multiple conflicting definition")), st)

/-- Model of `provide_package`: parse the config at the path, reject a
declared name differing from the expected one, walk the dependencies, then
register the synthesized one-release package and return an exact-version
constraint. -/
def providePackage (env : Env) : Nat → String → String → ResolveState →
    RRes RangeS × ResolveState
  | 0, _, _, st => (.diverge, st)
  | fuel + 1, packageName, packagePath, st =>
    match configRead env (pathJoin packagePath "gleam.toml") st with
    | (.error e, st) => (.err e, st)
    | (.ok config, st) =>
      if config.name ≠ packageName then
        (.err (.dependencyResolutionFailed
          (packageName ++ " was expected but " ++ config.name ++ " was found")), st)
      else
        match provideDeps env fuel packagePath config.dependencies [] st with
        | (.err e, st) => (.err e, st)
        | (.panic m, st) => (.panic m, st)
        | (.diverge, st) => (.diverge, st)
        | (.ok requirements, st) =>
          let release : HexRelease := ⟨config.version, requirements, none, []⟩
          let pkg : HexPackage := ⟨config.name, "local", [release]⟩
          let st := { st with provided := mapInsert st.provided config.name pkg }
          (.ok ⟨"== " ++ config.version.toStr⟩, st)

/-- The `for (name, recipe) in config.dependencies` loop of
`provide_package`, accumulating the `requirements` map. -/
def provideDeps (env : Env) : Nat → String → List (String × Recipe) →
    List (String × HexDependency) → ResolveState →
    RRes (List (String × HexDependency)) × ResolveState
  | 0, _, _, _, st => (.diverge, st)
  | _ + 1, _, [], acc, st => (.ok acc, st)
  | fuel + 1, packagePath, (name, recipe) :: rest, acc, st =>
    let step : RRes RangeS × ResolveState :=
      match recipe with
      | .hex version => (.ok version, st)
      | .path p => provideLocalPackage env fuel name (pathJoin packagePath p) st
      | .git g => provideGitPackage name g st
    match step with
    | (.ok version, st) =>
      provideDeps env fuel packagePath rest
        (mapInsert acc name ⟨version, false, none, none⟩) st
    | (.err e, st) => (.err e, st)
    | (.panic m, st) => (.panic m, st)
    | (.diverge, st) => (.diverge, st)

end

/-- The observable actions of `add_missing_packages`: the symlinks created
for `Local` sources, the hex packages handed to the downloader, and the
count reported to telemetry. -/
structure SyncActions where
  symlinks : List (String × String)
  downloads : List ManifestPackage
  numToDownload : Nat
deriving DecidableEq, Repr

/-- The body of the link loop of `add_missing_packages` for one missing
package: `Hex` and `Git` sources do nothing (`Ok(())`); a `Local` source
symlinks its path to `packages_dir.join(project_name)` (note: the
destination is built from the project name, not the package name). -/
def linkAction (packagesDir projectName : String) (p : ManifestPackage) :
    Option (String × String) :=
  let packageDest := pathJoin packagesDir projectName
  match p.source with
  | .hex _ => none
  | .localPath path => some (path, packageDest)
  | .git _ _ => none

/-- Whether a manifest package source is a hex (registry) source, as in the
`missing_hex_packages` filter. -/
def isHexSource : ManifestPackageSource → Bool
  | .hex _ => true
  | .localPath _ => false
  | .git _ _ => false

/-- Model of `add_missing_packages` (the filesystem and network effects are
represented as action lists): compute the missing set, link `Local` sources,
and hand the hex subset to the downloader, counting it for telemetry. -/
def addMissingPackages (packagesDir : String) (manifest : Manifest)
    (lp : LocalPackages) (projectName : String) : SyncActions :=
  let missingPackages := lp.missingLocalPackages manifest projectName
  let symlinks := missingPackages.filterMap (linkAction packagesDir projectName)
  let missingHexPackages := missingPackages.filter (fun p => isHexSource p.source)
  { symlinks := symlinks
    downloads := missingHexPackages
    numToDownload := missingHexPackages.length }

/-- A hex-sourced manifest package fixture (build tools and checksums as in
the repository's own unit tests). -/
def mkHexPackage (n : String) (v : Version) (cs : List Nat) : ManifestPackage :=
  ⟨n, v, ["gleam"], none, [], .hex cs⟩

/-- The manifest of the concrete reconciliation scenario: a root package and
two dependencies. -/
def scenarioManifest : Manifest :=
  ⟨[], [mkHexPackage "root" ⟨1, 0, 0⟩ [1, 2, 3, 4],
        mkHexPackage "local1" ⟨1, 0, 0⟩ [1, 2, 3, 4, 5],
        mkHexPackage "local2" ⟨3, 0, 0⟩ [1, 2, 3, 4, 5]]⟩

/-- The local state of the concrete reconciliation scenario. -/
def scenarioLocal : LocalPackages :=
  ⟨[("local2", ⟨2, 0, 0⟩), ("local3", ⟨3, 0, 0⟩)]⟩

/-- An empty manifest fixture. -/
def emptyManifest : Manifest := ⟨[], []⟩

/-- A manifest fixture whose stored requirements are nonempty. -/
def reqManifest : Manifest := ⟨[("wibble", .hex ⟨">= 0.0.0"⟩)], []⟩

/-- The filesystem environment of the concrete provider-walk scenarios: one
package named `a` at path `/a`, which canonicalizes to itself. -/
def envA : Env :=
  ⟨[("/a/gleam.toml", ⟨"a", ⟨1, 0, 0⟩, []⟩)],
   fun p => if p = "/a" then some "/a" else none⟩

/-- The empty resolution state. -/
def emptyResolveState : ResolveState := ⟨[], [], []⟩

/-- A resolution state in which `a` is registered under a different local
origin. -/
def conflictState : ResolveState := ⟨[("a", .localPath "/elsewhere")], [], []⟩

/-- A resolution state in which `a` is registered under the origin `/a`. -/
def sameOriginState : ResolveState := ⟨[("a", .localPath "/a")], [], []⟩

/-- A filesystem in which the package at `/m` declares the name `other`. -/
def envMismatch : Env :=
  ⟨[("/m/gleam.toml", ⟨"other", ⟨1, 0, 0⟩, []⟩)],
   fun p => if p = "/m" then some "/m" else none⟩

/-- An environment whose canonicalization always fails (no path exists). -/
def envNoCanon : Env := ⟨[], fun _ => none⟩

/-- A local-path manifest package fixture. -/
def localDepPackage : ManifestPackage :=
  ⟨"dep_a", ⟨1, 0, 0⟩, ["gleam"], none, [], .localPath "/abs/dep_a"⟩

/-- A one-package manifest whose only package is the local dependency. -/
def localDepManifest : Manifest := ⟨[], [localDepPackage]⟩

/-- The empty local state. -/
def emptyLocalPackages : LocalPackages := ⟨[]⟩

/-- A Git-sourced manifest package fixture. -/
def gitDepPackage : ManifestPackage :=
  ⟨"git_dep", ⟨1, 0, 0⟩, ["gleam"], none, [],
   .git "https://example.com/repo.git" "abc123"⟩

theorem mapGet_eq_none {α : Type} {m : List (String × α)} {k : String} :
    mapGet m k = none ↔ ∀ p ∈ m, p.1 ≠ k := by
  simp [mapGet, List.find?_eq_none]

theorem mapGet_of_mem_nodup {α : Type} {m : List (String × α)} {k : String}
    {v : α} (hn : (m.map Prod.fst).Nodup) (hm : (k, v) ∈ m) :
    mapGet m k = some v := by
  induction m with
  | nil => cases hm
  | cons p t ih =>
    obtain ⟨k1, v1⟩ := p
    simp only [List.map_cons, List.nodup_cons] at hn
    rcases List.mem_cons.mp hm with h | h
    · cases h
      simp [mapGet]
    · have hk : k1 ≠ k := by
        rintro rfl
        exact hn.1 (List.mem_map.mpr ⟨(k1, v), h, rfl⟩)
      have hfind : ((k1, v1).1 == k) = false := by
        simpa using hk
      simp only [mapGet, List.find?_cons, hfind]
      exact ih hn.2 h

theorem foldl_mapInsert_of_disjoint {α : Type} :
    ∀ (l acc : List (String × α)),
      (l.map Prod.fst).Nodup →
      (∀ k, k ∈ l.map Prod.fst → mapGet acc k = none) →
      l.foldl (fun m nv => mapInsert m nv.1 nv.2) acc = acc ++ l
  | [], acc, _, _ => by simp
  | (k, v) :: t, acc, hn, hd => by
    simp only [List.map_cons, List.nodup_cons] at hn
    have hacc : mapGet acc k = none := hd k (by simp)
    have hfind : (acc.find? (fun p => p.1 == k)).isSome = false := by
      rw [mapGet] at hacc
      cases hf : acc.find? (fun p => p.1 == k) with
      | none => rfl
      | some q => rw [hf] at hacc; simp at hacc
    have hins : mapInsert acc k v = acc ++ [(k, v)] := by
      simp [mapInsert, hfind]
    have hrest : ∀ k2, k2 ∈ t.map Prod.fst → mapGet (acc ++ [(k, v)]) k2 = none := by
      intro k2 hk2
      have h1 : mapGet acc k2 = none := hd k2 (by simp [hk2])
      have hkk : k ≠ k2 := by
        rintro rfl
        exact hn.1 hk2
      rw [mapGet_eq_none] at h1 ⊢
      intro p hp
      rcases List.mem_append.mp hp with h | h
      · exact h1 p h
      · rcases List.mem_singleton.mp h with rfl
        exact hkk
    calc ((k, v) :: t).foldl (fun m nv => mapInsert m nv.1 nv.2) acc
        = t.foldl (fun m nv => mapInsert m nv.1 nv.2) (mapInsert acc k v) := by
          simp [List.foldl_cons]
      _ = mapInsert acc k v ++ t := foldl_mapInsert_of_disjoint t _ hn.2 (by rw [hins]; exact hrest)
      _ = acc ++ ((k, v) :: t) := by rw [hins]; simp

theorem fromManifest_packages {M : Manifest}
    (h : (M.packages.map (fun p => p.name)).Nodup) :
    (LocalPackages.fromManifest M).packages =
      M.packages.map (fun p => (p.name, p.version)) := by
  unfold LocalPackages.fromManifest
  have hkeys : (M.packages.map (fun p => (p.name, p.version))).map Prod.fst =
      M.packages.map (fun p => p.name) := by
    simp [List.map_map]
  have := foldl_mapInsert_of_disjoint (α := Version)
    (M.packages.map (fun p => (p.name, p.version))) []
    (by rw [hkeys]; exact h) (fun k _ => rfl)
  simpa using this

/-- C1: `missing_local_packages` returns exactly the manifest packages whose
name differs from the root and whose name is absent from the local state or
recorded there under a different version; the root-named package is never
included. -/
theorem missing_local_packages_spec (L : LocalPackages) (M : Manifest)
    (r : String) (p : ManifestPackage) :
    p ∈ L.missingLocalPackages M r ↔
      p ∈ M.packages ∧ p.name ≠ r ∧
        (mapGet L.packages p.name = none ∨
          ∃ v, mapGet L.packages p.name = some v ∧ v ≠ p.version) := by
  unfold LocalPackages.missingLocalPackages
  simp only [List.mem_filter, decide_eq_true_eq]
  constructor
  · rintro ⟨hm, hr, hv⟩
    refine ⟨hm, hr, ?_⟩
    cases h : mapGet L.packages p.name with
    | none => exact Or.inl rfl
    | some v => exact Or.inr ⟨v, rfl, fun hvv => hv (by rw [h, hvv])⟩
  · rintro ⟨hm, hr, hv⟩
    refine ⟨hm, hr, ?_⟩
    rcases hv with h | ⟨v, h, hne⟩
    · rw [h]; simp
    · rw [h]; simp [hne]

/-- C2: `extra_local_packages` returns exactly the locally recorded pairs
whose exact (name, version) pair is absent from the manifest, and the
concrete scenario yields extra = {local2@2.0.0, local3@3.0.0} and
missing = {local1@1.0.0, local2@3.0.0}. -/
theorem extra_local_packages_spec :
    (∀ (L : LocalPackages) (M : Manifest) (n : String) (v : Version),
      (n, v) ∈ L.extraLocalPackages M ↔
        (n, v) ∈ L.packages ∧
          (n, v) ∉ M.packages.map (fun p => (p.name, p.version))) ∧
    scenarioLocal.extraLocalPackages scenarioManifest =
      [("local2", ⟨2, 0, 0⟩), ("local3", ⟨3, 0, 0⟩)] ∧
    scenarioLocal.missingLocalPackages scenarioManifest "root" =
      [mkHexPackage "local1" ⟨1, 0, 0⟩ [1, 2, 3, 4, 5],
       mkHexPackage "local2" ⟨3, 0, 0⟩ [1, 2, 3, 4, 5]] := by
  refine ⟨?_, by decide, by decide⟩
  intro L M n v
  unfold LocalPackages.extraLocalPackages
  simp [List.mem_filter]

/-- C3: starting from the local state derived from a manifest with pairwise
distinct package names, reconciliation is a fixed point: no extra and no
missing packages, so a second synchronization run deletes and downloads
nothing. -/
theorem sync_reconciliation_idempotent (M : Manifest) (r : String)
    (h : (M.packages.map (fun p => p.name)).Nodup) :
    (LocalPackages.fromManifest M).extraLocalPackages M = [] ∧
    (LocalPackages.fromManifest M).missingLocalPackages M r = [] := by
  have hfm := fromManifest_packages h
  constructor
  · unfold LocalPackages.extraLocalPackages
    rw [hfm]
    apply List.filter_eq_nil_iff.mpr
    intro nv hnv
    simp only [decide_eq_true_eq, not_not]
    exact hnv
  · unfold LocalPackages.missingLocalPackages
    apply List.filter_eq_nil_iff.mpr
    intro p hp
    simp only [decide_eq_true_eq, not_and, ne_eq, not_not]
    intro _
    rw [hfm]
    have hkeys : ((M.packages.map (fun p => (p.name, p.version))).map Prod.fst).Nodup := by
      simpa [List.map_map] using h
    exact mapGet_of_mem_nodup hkeys (List.mem_map.mpr ⟨p, hp, rfl⟩)

/-- Witness for C3 at the concrete scenario manifest. -/
theorem sync_reconciliation_idempotent_witness :
    (LocalPackages.fromManifest scenarioManifest).extraLocalPackages
        scenarioManifest = [] ∧
    (LocalPackages.fromManifest scenarioManifest).missingLocalPackages
        scenarioManifest "root" = [] :=
  sync_reconciliation_idempotent scenarioManifest "root" (by decide)

/-- C4: `get_manifest` returns the cached manifest unchanged (and performs no
resolution) when its requirements equal the config's merged dependency map;
re-resolves with the cached manifest as locked baseline when they differ; and
resolves anew with no baseline when the file is absent or the caller passed
`UseManifest::No`. -/
theorem get_manifest_spec (resolve : Option Manifest → Manifest) (m : Manifest)
    (configDeps : List (String × Recipe)) :
    (hashMapEq m.requirements configDeps = true →
      getManifest resolve (some m) .yes configDeps = ⟨false, m, []⟩) ∧
    (hashMapEq m.requirements configDeps = false →
      getManifest resolve (some m) .yes configDeps =
        ⟨true, resolve (some m), [some m]⟩) ∧
    (∀ um, getManifest resolve none um configDeps =
      ⟨true, resolve none, [none]⟩) ∧
    (∀ file, getManifest resolve file .no configDeps =
      ⟨true, resolve none, [none]⟩) := by
  refine ⟨fun h => ?_, fun h => ?_, fun um => rfl, fun file => ?_⟩
  · simp [getManifest, h]
  · simp [getManifest, h]
  · cases file <;> rfl

/-- Witness for C4: with equal requirements the cached manifest comes back
unchanged with no resolution; with differing requirements resolution runs
with the cached manifest as baseline. -/
theorem get_manifest_spec_witness :
    getManifest (fun _ => emptyManifest) (some emptyManifest) .yes [] =
      ⟨false, emptyManifest, []⟩ ∧
    getManifest (fun _ => emptyManifest) (some reqManifest) .yes [] =
      ⟨true, emptyManifest, [some reqManifest]⟩ :=
  ⟨(get_manifest_spec (fun _ => emptyManifest) emptyManifest []).1 (by decide),
   (get_manifest_spec (fun _ => emptyManifest) reqManifest []).2.1 (by decide)⟩

/-- Counterexample for C5: after a first successful walk of package `a`, a
second `provide_local_package` call with the same canonical path succeeds and
returns the exact-version constraint, but the read log shows `/a/gleam.toml`
parsed a second time — the short-circuit re-reads the dependency's own
config. -/
theorem provide_local_package_reparses_config :
    (provideLocalPackage envA 5 "a" "/a"
        ((provideLocalPackage envA 5 "a" "/a" emptyResolveState).2)).1 =
      .ok ⟨"== 1.0.0"⟩ ∧
    (provideLocalPackage envA 5 "a" "/a" emptyResolveState).2.readLog =
      ["/a/gleam.toml"] ∧
    (provideLocalPackage envA 5 "a" "/a"
        ((provideLocalPackage envA 5 "a" "/a" emptyResolveState).2)).2.readLog =
      ["/a/gleam.toml", "/a/gleam.toml"] := by
  decide

/-- C5 (amended): a name registered with a different origin fails with the
conflict error naming the package (the origin map now holding the new
origin); a name registered with the same canonical path succeeds with the
exact-version constraint, performing exactly one further read of that
package's own config and no walk of its dependencies (the resulting state
differs only by that one logged read and the re-inserted origin; `provided`
is untouched). -/
theorem provide_local_package_registered_spec (env : Env) (fuel : Nat)
    (name path canonical : String) (st : ResolveState) (cfg : PackageConfig)
    (hc : env.canon path = some canonical) :
    (∀ pi, mapGet st.info name = some pi → pi ≠ .localPath canonical →
      provideLocalPackage env (fuel + 1) name path st =
        (.err (.dependencyResolutionFailed
            (name ++ " has multiple conflicting definition")),
         { st with info := mapInsert st.info name (.localPath canonical) })) ∧
    (mapGet st.info name = some (.localPath canonical) →
      mapGet env.fs (pathJoin path "gleam.toml") = some cfg →
      provideLocalPackage env (fuel + 1) name path st =
        (.ok ⟨"== " ++ cfg.version.toStr⟩,
         { st with info := mapInsert st.info name (.localPath canonical),
                   readLog := st.readLog ++ [pathJoin path "gleam.toml"] })) := by
  constructor
  · intro pi hpi hne
    simp only [provideLocalPackage, hc, hpi]
    rw [if_neg hne]
  · intro hpi hread
    simp only [provideLocalPackage, hc, hpi, configRead, hread]
    simp

/-- Witness for C5 (amended) at concrete states: the conflicting origin
fails with the conflict error; the same origin succeeds with the
exact-version constraint and one config read. -/
theorem provide_local_package_registered_spec_witness :
    provideLocalPackage envA 5 "a" "/a" conflictState =
      (.err (.dependencyResolutionFailed
          ("a" ++ " has multiple conflicting definition")),
       { conflictState with
           info := mapInsert conflictState.info "a" (.localPath "/a") }) ∧
    provideLocalPackage envA 5 "a" "/a" sameOriginState =
      (.ok ⟨"== " ++ (PackageConfig.mk "a" ⟨1, 0, 0⟩ []).version.toStr⟩,
       { sameOriginState with
           info := mapInsert sameOriginState.info "a" (.localPath "/a"),
           readLog := sameOriginState.readLog ++ [pathJoin "/a" "gleam.toml"] }) :=
  ⟨(provide_local_package_registered_spec envA 4 "a" "/a" "/a" conflictState
      ⟨"a", ⟨1, 0, 0⟩, []⟩ (by decide)).1 (.localPath "/elsewhere")
      (by decide) (by decide),
   (provide_local_package_registered_spec envA 4 "a" "/a" "/a" sameOriginState
      ⟨"a", ⟨1, 0, 0⟩, []⟩ (by decide)).2 (by decide) (by decide)⟩

/-- Counterexample for C6: `provide_git_package` fails but leaves the
resolution state untouched — in particular the package's Git origin is NOT
registered in the `ProviderInfo` map before failing. -/
theorem provide_git_package_registers_nothing :
    provideGitPackage "wibble" "https://example.com/repo.git" emptyResolveState =
      (.err (.dependencyResolutionFailed "Git dependencies are not supported"),
       emptyResolveState) ∧
    mapGet (provideGitPackage "wibble" "https://example.com/repo.git"
        emptyResolveState).2.info "wibble" = none := by
  decide

/-- C6 (amended): `provide_git_package` always fails with the unsupported
error and returns the resolution state unchanged; the `ProviderInfo::Git`
value it builds is discarded without being inserted into the map. -/
theorem provide_git_package_spec (name repo : String) (st : ResolveState) :
    provideGitPackage name repo st =
      (.err (.dependencyResolutionFailed "Git dependencies are not supported"),
       st) := rfl

/-- C7: when the config parsed at the path declares a name different from
the expected dependency name, `provide_package` fails with the name-mismatch
error and registers nothing: the resulting state differs from the input only
by the logged config read (`provided` and `info` are unchanged). -/
theorem provide_package_name_mismatch (env : Env) (fuel : Nat)
    (name path : String) (st : ResolveState) (cfg : PackageConfig)
    (hread : mapGet env.fs (pathJoin path "gleam.toml") = some cfg)
    (hne : cfg.name ≠ name) :
    providePackage env (fuel + 1) name path st =
      (.err (.dependencyResolutionFailed
          (name ++ " was expected but " ++ cfg.name ++ " was found")),
       { st with readLog := st.readLog ++ [pathJoin path "gleam.toml"] }) ∧
    (providePackage env (fuel + 1) name path st).2.provided = st.provided := by
  have h : providePackage env (fuel + 1) name path st =
      (.err (.dependencyResolutionFailed
          (name ++ " was expected but " ++ cfg.name ++ " was found")),
       { st with readLog := st.readLog ++ [pathJoin path "gleam.toml"] }) := by
    simp only [providePackage, configRead, hread]
    rw [if_pos hne]
  exact ⟨h, by rw [h]⟩

/-- Witness for C7 at a concrete mismatching package. -/
theorem provide_package_name_mismatch_witness :
    providePackage envMismatch 5 "m" "/m" emptyResolveState =
      (.err (.dependencyResolutionFailed
          ("m" ++ " was expected but " ++ "other" ++ " was found")),
       { emptyResolveState with
           readLog := emptyResolveState.readLog ++ [pathJoin "/m" "gleam.toml"] }) ∧
    (providePackage envMismatch 5 "m" "/m" emptyResolveState).2.provided =
      emptyResolveState.provided :=
  provide_package_name_mismatch envMismatch 4 "m" "/m" emptyResolveState
    ⟨"other", ⟨1, 0, 0⟩, []⟩ (by decide) (by decide)

/-- C9 evaluation: on a path that cannot be canonicalized,
`provide_local_package` panics (via `.expect`) instead of returning a typed
filesystem error. -/
theorem provide_local_package_panics_on_bad_path :
    provideLocalPackage envNoCanon 5 "dep" "/does/not/exist" emptyResolveState =
      (.panic "local package cannonical path", emptyResolveState) := by
  decide

/-- C8 evaluation: for the missing local package `dep_a`, the symlink is
created at `packages_dir.join(project_name)` — the slot named after the
ROOT PROJECT, not the slot named after the package, which would be
`pathJoin packagesDir localDepPackage.name`. -/
theorem add_missing_packages_symlink_dest :
    (addMissingPackages "/build/packages" localDepManifest emptyLocalPackages
        "my_project").symlinks =
      [("/abs/dep_a", "/build/packages/my_project")] ∧
    pathJoin "/build/packages" "my_project" ≠
      pathJoin "/build/packages" localDepPackage.name := by
  decide

/-- C10: a Git-sourced package that the reconciliation classifies as missing
is silently skipped by `add_missing_packages`: it is in the missing set, yet
appending it to the manifest changes none of the observable actions — no
symlink, not in the download batch, not counted, no error. -/
theorem add_missing_packages_skips_git (packagesDir projectName : String)
    (M : Manifest) (L : LocalPackages) (g : ManifestPackage)
    (repo commit : String) (hg : g.source = .git repo commit)
    (hname : g.name ≠ projectName)
    (hver : mapGet L.packages g.name ≠ some g.version) :
    g ∈ L.missingLocalPackages ⟨M.requirements, M.packages ++ [g]⟩ projectName ∧
    addMissingPackages packagesDir ⟨M.requirements, M.packages ++ [g]⟩ L
        projectName =
      addMissingPackages packagesDir M L projectName := by
  constructor
  · unfold LocalPackages.missingLocalPackages
    simp only [List.mem_filter, decide_eq_true_eq, List.mem_append]
    exact ⟨Or.inr (List.mem_singleton.mpr rfl), hname, hver⟩
  · have hmiss : L.missingLocalPackages ⟨M.requirements, M.packages ++ [g]⟩
        projectName = L.missingLocalPackages M projectName ++ [g] := by
      unfold LocalPackages.missingLocalPackages
      simp only [List.filter_append]
      congr 1
      simp [List.filter_cons, hname, hver]
    simp only [addMissingPackages, hmiss, List.filterMap_append,
      List.filter_append, List.length_append]
    simp [linkAction, isHexSource, hg]

/-- Witness for C10: the Git package is missing yet contributes no action. -/
theorem add_missing_packages_skips_git_witness :
    gitDepPackage ∈ emptyLocalPackages.missingLocalPackages
      ⟨localDepManifest.requirements, localDepManifest.packages ++ [gitDepPackage]⟩
      "my_project" ∧
    addMissingPackages "/build/packages"
        ⟨localDepManifest.requirements,
         localDepManifest.packages ++ [gitDepPackage]⟩
        emptyLocalPackages "my_project" =
      addMissingPackages "/build/packages" localDepManifest emptyLocalPackages
        "my_project" :=
  add_missing_packages_skips_git "/build/packages" "my_project"
    localDepManifest emptyLocalPackages gitDepPackage
    "https://example.com/repo.git" "abc123" rfl (by decide) (by decide)

end Gleam
